import Mathlib

/-!
Verification of the RetirementPlannerAPIs core against its specification.

The Python sources are shallowly embedded: pandas/numpy float computations
become functions over `ℚ`, fallible code returns `Option`/`Except`, and the
pseudo-random index stream of the bootstrap simulator is an explicit
parameter.  Each definition carries a comment naming the source function it
embeds.
-/

namespace RetirementPlanner

/-- Dot product of two rational vectors, the embedding of
`np.sum(a * b)` / `np.dot` on equal-length 1-D arrays. -/
def dotProd (xs ys : List ℚ) : ℚ := (List.zipWith (· * ·) xs ys).sum

/-! ### Historical bootstrapping (src/simulation.py, `run_historical_bootstrapping`)

The return matrix is a list of rows (one per historical month); each row is
the list of per-asset monthly returns.  `idx` is the stream of random indices
drawn by `np.random.randint(0, num_historical_months)`: `idx s m` is the draw
made for simulation `s`, month `m`.  The source draws ONE index per
(simulation, month) and copies that entire historical row, asset by asset,
into the per-asset path lists. -/

/-- The historical row copied for simulation `s`, month `m`
(`combined_returns_df.iloc[random_index]` at src/simulation.py line 35). -/
def bootstrapRow (matrix : List (List ℚ)) (idx : ℕ → ℕ → ℕ) (s m : ℕ) : List ℚ :=
  matrix.getD (idx s m) []

/-- The simulated path of asset `a` in simulation `s`: for each of the
`horizon` months, the value of asset `a` in the row drawn for that
(simulation, month) (src/simulation.py lines 33-41). -/
def simulatedPath (matrix : List (List ℚ)) (idx : ℕ → ℕ → ℕ) (a s horizon : ℕ) : List ℚ :=
  (List.range horizon).map (fun m => (bootstrapRow matrix idx s m).getD a 0)

/-! ### Efficient frontier generator (src/portfolio_analysis.py)

MVO inputs.  pandas `mean()` is the column sum over the row count and
`cov()` is the sample covariance with denominator n - 1. -/

/-- Mean of a list, embedding `combined_returns_df.mean()` for one column.
For the empty list ℚ division yields 0 where pandas would yield NaN; all
uses below have at least one row. -/
def listMean (xs : List ℚ) : ℚ := xs.sum / xs.length

/-- Column `j` of a row-major matrix. -/
def column (df : List (List ℚ)) (j : ℕ) : List ℚ := df.map (fun row => row.getD j 0)

/-- Sample covariance of two equal-length columns (pandas `cov()`,
denominator n - 1).  For n ≤ 1 the ℚ division yields 0 where pandas would
yield NaN; all uses below have at least two rows. -/
def sampleCov (xs ys : List ℚ) : ℚ :=
  (List.zipWith (fun x y => (x - listMean xs) * (y - listMean ys)) xs ys).sum
    / ((xs.length : ℚ) - 1)

/-- Annualized covariance matrix: monthly sample covariance times 12
(src/portfolio_analysis.py line 25). -/
def covariance_matrix_annualized (df : List (List ℚ)) (numAssets : ℕ) : List (List ℚ) :=
  (List.range numAssets).map (fun i =>
    (List.range numAssets).map (fun j => sampleCov (column df i) (column df j) * 12))

/-- Annualized expected returns: (1 + monthly mean)^12 - 1
(src/portfolio_analysis.py line 24). -/
def expected_returns_annualized (df : List (List ℚ)) (numAssets : ℕ) : List ℚ :=
  (List.range numAssets).map (fun j => (1 + listMean (column df j)) ^ 12 - 1)

/-- Embeds `calculate_portfolio_metrics` (src/portfolio_analysis.py lines
7-13).  First component is the portfolio return `np.sum(er * w)`.  The
second component is the SQUARE of the code's `p_volatility` (the quadratic
form w' C w before `np.sqrt`): the square root of a rational is irrational
in general, and every claim below needs only facts expressible through the
square (in particular p_volatility = 0 iff the quadratic form is 0). -/
def calculate_portfolio_metrics (weights er : List ℚ) (cov : List (List ℚ)) : ℚ × ℚ :=
  (dotProd er weights, dotProd weights (cov.map (fun row => dotProd row weights)))

/-- Embeds line 50 of src/portfolio_analysis.py,
`results[2,i] = p_return / p_volatility`, with no guard on zero volatility.
The arguments are the portfolio return and the squared volatility.  IEEE
float division by zero does not raise: it produces a non-finite value
(inf or NaN), modelled by `none`.  In the finite case the mathematical
value ret / sqrt volSq is irrational in general, so it is recorded
symbolically as the pair (numerator, squared denominator). -/
def sharpe_ratio_unguarded (ret volSq : ℚ) : Option (ℚ × ℚ) :=
  if volSq = 0 then none else some (ret, volSq)

/-- A degenerate ReturnMatrix: 3 months, 2 assets, every return 1/100.
Its covariance matrix is exactly zero, so every random portfolio drawn on
it has zero volatility. -/
def c3Matrix : List (List ℚ) := [[1/100, 1/100], [1/100, 1/100], [1/100, 1/100]]

/-! ### Frontier extraction (src/portfolio_analysis.py lines 57-72)

A generated sample is reduced to its (Volatility, Return) pair; the asset
weights play no role in the extraction. -/

/-- Minimum of the Volatility column (`portfolios_df_sorted['Volatility'].min()`). -/
def volMin : List (ℚ × ℚ) → ℚ
  | [] => 0
  | p :: ps => ps.foldl (fun acc q => min acc q.1) p.1

/-- Maximum of the Volatility column (`portfolios_df_sorted['Volatility'].max()`). -/
def volMax : List (ℚ × ℚ) → ℚ
  | [] => 0
  | p :: ps => ps.foldl (fun acc q => max acc q.1) p.1

/-- Sort key of line 58: Volatility ascending, Return descending. -/
def sampleOrder (p q : ℚ × ℚ) : Prop := p.1 < q.1 ∨ (p.1 = q.1 ∧ q.2 ≤ p.2)

instance : DecidableRel sampleOrder := fun p q => by
  unfold sampleOrder; infer_instance

/-- Sort key of line 72: Volatility ascending. -/
def volLE (p q : ℚ × ℚ) : Prop := p.1 ≤ q.1

instance : DecidableRel volLE := fun p q => by
  unfold volLE; infer_instance

instance : IsTotal (ℚ × ℚ) volLE := ⟨fun p q => le_total p.1 q.1⟩

instance : IsTrans (ℚ × ℚ) volLE := ⟨fun _ _ _ h1 h2 => le_trans h1 h2⟩

/-- First sample of maximal Return in a bucket: `idxmax` on the Return
column returns the first row attaining the maximum, in row order. -/
def argmaxReturn : List (ℚ × ℚ) → Option (ℚ × ℚ)
  | [] => none
  | p :: ps =>
    match argmaxReturn ps with
    | none => some p
    | some q => if p.2 < q.2 then some q else some p

/-- Keep-first deduplication by exact Volatility value, the embedding of
`drop_duplicates(subset=['Volatility'])` (line 71).  `seen` is the set of
Volatility keys already emitted. -/
def dedupByVolAux : List ℚ → List (ℚ × ℚ) → List (ℚ × ℚ)
  | _, [] => []
  | seen, p :: ps =>
    if p.1 ∈ seen then dedupByVolAux seen ps
    else p :: dedupByVolAux (p.1 :: seen) ps

/-- Deduplicate by exact Volatility, keeping the first occurrence. -/
def dedupByVol (l : List (ℚ × ℚ)) : List (ℚ × ℚ) := dedupByVolAux [] l

/-- The i-th of the 100 bucket edges `np.linspace(min, max, 100)` (line 59). -/
def binEdge (vmin vmax : ℚ) (i : ℕ) : ℚ := vmin + i * (vmax - vmin) / 99

/-- Embeds the frontier extraction of `generate_efficient_frontier`
(src/portfolio_analysis.py lines 57-72): sort by (Volatility asc, Return
desc); 100 linspace edges over the observed volatility range; for each of
the 99 half-open buckets keep the sample of maximal Return if the bucket is
non-empty; deduplicate by exact Volatility; sort ascending by Volatility. -/
def generate_efficient_frontier_extract (samples : List (ℚ × ℚ)) : List (ℚ × ℚ) :=
  let sorted := List.insertionSort sampleOrder samples
  let vmin := volMin samples
  let vmax := volMax samples
  let picked := (List.range 99).flatMap (fun i =>
    match argmaxReturn (sorted.filter
        (fun p => decide (binEdge vmin vmax i ≤ p.1 ∧ p.1 < binEdge vmin vmax (i + 1)))) with
    | none => []
    | some p => [p])
  List.insertionSort volLE (dedupByVol picked)

/-! ### Risk profiling (src/risk_profiling.py)

A risk band as configured in `config.RISK_BAND_DEFINITIONS_BY_TERM`: each
of the levels 1..10 maps to a volatility range and a maximum tolerable
drawdown. -/

structure RiskBand where
  vol_min : ℚ
  vol_max : ℚ
  dd_max : ℚ
deriving DecidableEq

/-- The risk levels 1..10 in the insertion (= iteration) order of the
config dictionaries. -/
def levelsList : List ℕ := [1, 2, 3, 4, 5, 6, 7, 8, 9, 10]

/-- Embeds the volatility-level loop of
`define_and_select_model_portfolios_by_term` (src/risk_profiling.py lines
108-116): the first level whose band contains the actual volatility in
[vol_min, vol_max); if none matches, level 10 when the volatility is at or
above band 10's vol_min, otherwise level 1. -/
def volRiskLevel (bands : ℕ → RiskBand) (v : ℚ) : ℕ :=
  match levelsList.find? (fun r => decide ((bands r).vol_min ≤ v ∧ v < (bands r).vol_max)) with
  | some r => r
  | none => if (bands 10).vol_min ≤ v then 10 else 1

/-- Embeds the drawdown-level loop (src/risk_profiling.py lines 118-124):
scan levels 10 down to 1 and take the first level whose dd_max is at or
above the 1st-percentile drawdown; level 1 if none matches. -/
def ddRiskLevel (bands : ℕ → RiskBand) (dd : ℚ) : ℕ :=
  match levelsList.reverse.find? (fun r => decide (dd ≤ (bands r).dd_max)) with
  | some r => r
  | none => 1

/-- The per-(term, risk level) record assembled at src/risk_profiling.py
lines 128-132. -/
structure ModelPortfolioRecord where
  volatility : ℚ
  expRet : ℚ
  drawdown1pct : ℚ
  volLevel : ℕ
  ddLevel : ℕ
  finalLevel : ℕ
deriving DecidableEq

/-- Embeds lines 106-132 of src/risk_profiling.py: assign the
volatility-derived and drawdown-derived levels and combine them with
`max` ("highest risk wins", line 126). -/
def classifyPortfolio (bands : ℕ → RiskBand) (v r dd : ℚ) : ModelPortfolioRecord :=
  { volatility := v
    expRet := r
    drawdown1pct := dd
    volLevel := volRiskLevel bands v
    ddLevel := ddRiskLevel bands dd
    finalLevel := max (volRiskLevel bands v) (ddRiskLevel bands dd) }

/-- Running minimum of drawdowns: `peak` is the expanding maximum so far,
`acc` the minimum drawdown so far. -/
def drawdownAux : ℚ → ℚ → List ℚ → ℚ
  | _, acc, [] => acc
  | peak, acc, v :: vs =>
    drawdownAux (max peak v) (min acc (v / max peak v - 1)) vs

/-- Embeds `calculate_max_drawdown` (src/risk_profiling.py lines 8-15):
expanding maximum, drawdown v / peak - 1, overall minimum.  The value
series is never empty in the source (it starts at 1.0). -/
def maxDrawdown : List ℚ → ℚ
  | [] => 0
  | v :: vs => drawdownAux v (v / v - 1) vs

/-- Compounded portfolio value after m months starting from 1.0
(src/risk_profiling.py lines 89-99). -/
def portfolioValue (ret : ℕ → ℚ) : ℕ → ℚ
  | 0 => 1
  | m + 1 => portfolioValue ret m * (1 + ret m)

/-- The full value series [1.0, ...] over the horizon, as built by the
inner month loop of src/risk_profiling.py lines 90-99. -/
def portfolioValues (ret : ℕ → ℚ) (months : ℕ) : List ℚ :=
  (List.range (months + 1)).map (portfolioValue ret)

/-- Embeds `np.percentile(xs, 1)` with the default linear interpolation
between order statistics (src/risk_profiling.py line 104): sort ascending,
h = (n-1)/100, interpolate between the floor(h)-th and next order
statistic. -/
def percentile1 (xs : List ℚ) : ℚ :=
  match xs with
  | [] => 0
  | _ :: _ =>
    let s := List.insertionSort (· ≤ ·) xs
    let n := xs.length
    let lo := (n - 1) / 100
    let frac : ℚ := ((n : ℚ) - 1) / 100 - (lo : ℚ)
    s.getD lo 0 + frac * (s.getD (min (lo + 1) (n - 1)) 0 - s.getD lo 0)

/-- A point of the extracted efficient frontier as consumed by the risk
classifier: its volatility, return and weight vector. -/
structure FrontierPoint where
  vol : ℚ
  ret : ℚ
  weights : List ℚ
deriving DecidableEq

instance : Inhabited FrontierPoint := ⟨⟨0, 0, []⟩⟩

/-- First index of the minimal value of |v - t|, the embedding of
`(efficient_frontier_df['Volatility'] - target_vol).abs().idxmin()`
(src/risk_profiling.py line 77): pandas idxmin returns the first row
attaining the minimum, in row order. -/
def idxminAbs (t : ℚ) : List ℚ → ℕ
  | [] => 0
  | v :: vs =>
    match vs with
    | [] => 0
    | _ :: _ =>
      let j := idxminAbs t vs
      if |v - t| ≤ |vs.getD j 0 - t| then 0 else j + 1

/-- The frontier row nearest to the target volatility
(src/risk_profiling.py lines 77-78). -/
def selectedFrontierPoint (frontier : List FrontierPoint) (t : ℚ) : FrontierPoint :=
  frontier.getD (idxminAbs t (frontier.map FrontierPoint.vol)) default

/-- Embeds the per-risk-level body of
`define_and_select_model_portfolios_by_term` (src/risk_profiling.py lines
76-132) for one target volatility: select the nearest frontier point,
replay every simulated path with its weights to get one max drawdown per
simulation, take the 1st percentile, and classify.  `paths` is the list of
per-asset simulated return functions (simulation index, month index). -/
def modelPortfolioAtTarget (frontier : List FrontierPoint) (bands : ℕ → RiskBand)
    (paths : List (ℕ → ℕ → ℚ)) (numSims horizon : ℕ) (t : ℚ) : ModelPortfolioRecord :=
  let p := selectedFrontierPoint frontier t
  let dds := (List.range numSims).map (fun s =>
    maxDrawdown (portfolioValues
      (fun m => dotProd p.weights (paths.map (fun path => path s m))) horizon))
  classifyPortfolio bands p.vol p.ret (percentile1 dds)

/-- Embeds `get_target_volatilities_for_risk_level_by_term`
(src/risk_profiling.py lines 17-26) on input of the documented shape, a
mapping term -> (mapping risk level -> band).  The inner loop is
`for risk_level, volatilities in band_entry:`, which iterates the band
MAPPING directly: Python dict iteration yields the bare integer keys, so
the 2-tuple unpacking raises TypeError at the first element of any
non-empty band mapping.  If every term's band mapping is empty the loops
fall through, and since the function body contains no return statement it
returns None (modelled by `Except.ok none`). -/
def get_target_volatilities_for_risk_level_by_term :
    List (String × List (ℕ × RiskBand)) → Except String (Option (List (ℕ × ℚ)))
  | [] => .ok none
  | (_, bands) :: rest =>
    match bands with
    | [] => get_target_volatilities_for_risk_level_by_term rest
    | _ :: _ => .error "TypeError: cannot unpack non-iterable int"

/-- The actual call at src/risk_profiling.py line 65 passes `term_name`, a
string, instead of the band table; `for term, band_entry in
term_name.items()` then raises AttributeError unconditionally, since
strings have no `items` method. -/
def get_target_volatilities_called_with_string (_termName : String) :
    Except String (Option (List (ℕ × ℚ))) :=
  .error "AttributeError: str object has no attribute items"

/-- The per-term control flow of `define_and_select_model_portfolios_by_term`
around the call at line 65: the exception from the helper propagates, so
the per-risk-level model portfolio construction (lines 73-156) is never
reached. -/
def modelPortfolioConstructionForTerm (termName : String) : Except String Unit := do
  let _tv ← get_target_volatilities_called_with_string termName
  pure ()

/-! ### Concrete data for the risk classifier theorems -/

/-- A concrete contiguous ascending band table: level r covers volatilities
[(r-1)/20, r/20) with maximum tolerable drawdown -r/10. -/
def cexBands : ℕ → RiskBand
  | 1 => ⟨0, 1/20, -(1/10)⟩
  | 2 => ⟨1/20, 2/20, -(2/10)⟩
  | 3 => ⟨2/20, 3/20, -(3/10)⟩
  | 4 => ⟨3/20, 4/20, -(4/10)⟩
  | 5 => ⟨4/20, 5/20, -(5/10)⟩
  | 6 => ⟨5/20, 6/20, -(6/10)⟩
  | 7 => ⟨6/20, 7/20, -(7/10)⟩
  | 8 => ⟨7/20, 8/20, -(8/10)⟩
  | 9 => ⟨8/20, 9/20, -(9/10)⟩
  | 10 => ⟨9/20, 10/20, -1⟩
  | _ => ⟨0, 0, 0⟩

/-- A concrete two-point frontier, sorted ascending by volatility. -/
def cexFrontier : List FrontierPoint :=
  [⟨1/10, 5/100, [1, 0]⟩, ⟨2/10, 8/100, [0, 1]⟩]

/-- One simulated path per asset (one simulation, one month): the first
asset loses 60 percent, the second is flat. -/
def cexPaths : List (ℕ → ℕ → ℚ) := [fun _ _ => -(6/10), fun _ _ => 0]

/-! ### Client retirement simulation (src/retirement_planner_tmp.py and
src/retirement_planner.py) -/

/-- Normalization of the loaded weights row,
`weights / weights.sum()` (src/retirement_planner_tmp.py line 22). -/
def normalizeWeights (ws : List ℚ) : List ℚ := ws.map (fun w => w / ws.sum)

/-- Embeds `load_model_portfolio_weights` (src/retirement_planner_tmp.py
lines 9-29).  `tbl` is the persisted model-portfolio table indexed by risk
level, or `none` when the file is missing (FileNotFoundError).  A missing
file or a missing risk level raises inside the `try`, is caught by the
`except` clauses, and the function returns the all-zero weight vector of
length `numAssets` after printing a message; no error value escapes. -/
def load_model_portfolio_weights (tbl : Option (List (ℕ × List ℚ))) (riskLevel numAssets : ℕ) :
    List ℚ :=
  match tbl with
  | none => List.replicate numAssets 0
  | some t =>
    match t.lookup riskLevel with
    | none => List.replicate numAssets 0
    | some ws => normalizeWeights ws

/-- Embeds the caller check at src/retirement_planner_tmp.py lines 72-77:
if the loaded weights sum to 0 the simulation is aborted and the empty
result is returned (`none`); otherwise the weights are used. -/
def clientSimulationWeights (tbl : Option (List (ℕ × List ℚ))) (riskLevel numAssets : ℕ) :
    Option (List ℚ) :=
  let w := load_model_portfolio_weights tbl riskLevel numAssets
  if w.sum = 0 then none else some w

/-- One month of the client cash-flow loop (src/retirement_planner_tmp.py
lines 123-146): compound the balance by the portfolio monthly return,
inflate the annual contribution and withdrawal at each 12-month boundary,
then add one month of contribution (before retirement) or subtract one
month of withdrawal (after).  Returns (new balance, new annual
contribution, new annual withdrawal). -/
def monthUpdate (ret : ℕ → ℚ) (infl : ℚ) (preM m : ℕ) (bal c w : ℚ) : ℚ × ℚ × ℚ :=
  let bal1 := bal * (1 + ret m)
  let c1 := if m % 12 = 0 ∧ 0 < m then c * (1 + infl) else c
  let w1 := if m % 12 = 0 ∧ 0 < m then w * (1 + infl) else w
  let bal2 := if m < preM then bal1 + c1 / 12 else bal1 - w1 / 12
  (bal2, c1, w1)

/-- The balances recorded by the month loop of one simulation run
(src/retirement_planner_tmp.py lines 111-154), starting at month `m` with
`k` months still to run.  The loop breaks when the month reaches the
simulated horizon; on ruin (balance ≤ 0 after the cash flow) it records a
final 0 and breaks. -/
def clientSimHistory (ret : ℕ → ℚ) (infl : ℚ) (preM horizonM : ℕ) :
    ℕ → ℕ → ℚ → ℚ → ℚ → List ℚ
  | _, 0, _, _, _ => []
  | m, k + 1, bal, c, w =>
    if horizonM ≤ m then []
    else
      let u := monthUpdate ret infl preM m bal c w
      if u.1 ≤ 0 then [0]
      else u.1 :: clientSimHistory ret infl preM horizonM (m + 1) k u.1 u.2.1 u.2.2

/-- The full recorded balance history of one simulation run: the initial
balance followed by the loop's records (src/retirement_planner_tmp.py
lines 104-154).  `totalM` is the total planning horizon in months,
`horizonM` the simulated-path horizon. -/
def run_client_retirement_simulation_run (ret : ℕ → ℚ) (infl : ℚ)
    (preM totalM horizonM : ℕ) (b0 c w : ℚ) : List ℚ :=
  b0 :: clientSimHistory ret infl preM horizonM 0 totalM b0 c w

/-- The terminal balance appended to `final_balances`
(src/retirement_planner_tmp.py line 156): the balance after the loop ends,
which is always the last recorded history entry. -/
def clientFinalBalance (ret : ℕ → ℚ) (infl : ℚ) (preM totalM horizonM : ℕ)
    (b0 c w : ℚ) : ℚ :=
  (run_client_retirement_simulation_run ret infl preM totalM horizonM b0 c w).getLastD 0

/-- The portfolio monthly return for a fixed simulation:
`np.sum(monthly_returns_all_assets * weights)`, where `paths` is the list
of per-asset month-indexed return functions. -/
def portfolioMonthlyReturn (weights : List ℚ) (paths : List (ℕ → ℚ)) (m : ℕ) : ℚ :=
  dotProd weights (paths.map (fun p => p m))

/-- The value of the loop variable `month_in_horizon` after the loop of
`RetirementSimulatorModelPortfolios.constant_nominal_contribution`
(src/retirement_planner.py lines 91-99).  For `pre = 0` the loop body
never runs and the variable is undefined (`none`, later a NameError);
otherwise the loop counts up from 0 and breaks at `horizonM`, leaving the
variable at min (pre - 1) horizonM. -/
def contributionLoopLastIndex (pre horizonM : ℕ) : Option ℕ :=
  if pre = 0 then none else some (min (pre - 1) horizonM)

/-- Embeds `constant_nominal_contribution` (src/retirement_planner.py lines
81-109).  The pre-computed portfolio monthly returns are the slice
`[:pre]` of the simulated paths (clamped to the horizon).  The balance
update and the history append at lines 103-107 sit OUTSIDE the `for` loop:
after the loop they run exactly once, using the final value of the loop
variable.  A run with `pre = 0` raises NameError; a run whose loop broke at
the horizon indexes past the end of the sliced array and raises IndexError. -/
def constant_nominal_contribution (weights : List ℚ) (paths : List (ℕ → ℚ))
    (contribution b0 : ℚ) (pre horizonM : ℕ) : Except String (List ℚ) :=
  let pmr := (List.range (min pre horizonM)).map (portfolioMonthlyReturn weights paths)
  match contributionLoopLastIndex pre horizonM with
  | none => .error "NameError: month_in_horizon is not defined"
  | some idx =>
    match pmr.get? idx with
    | none => .error "IndexError: index out of bounds"
    | some r => .ok [b0, b0 * (1 + r) + contribution]

/-- C1: every simulated value at (s, m) comes from a single shared historical
row: there is one row index r (the random draw for that simulation and month)
such that for every asset the simulated value equals that asset's entry of
row r.  No simulated value is invented. -/
theorem bootstrap_closure (matrix : List (List ℚ)) (idx : ℕ → ℕ → ℕ)
    (s m horizon : ℕ)
    (hidx : ∀ s m, idx s m < matrix.length)
    (hm : m < horizon) :
    ∃ r, r < matrix.length ∧
      ∀ a, (simulatedPath matrix idx a s horizon).getD m 0
            = (matrix.getD r []).getD a 0 := by
  refine ⟨idx s m, hidx s m, fun a => ?_⟩
  simp [simulatedPath, bootstrapRow, List.getD_eq_getElem?_getD,
    List.getElem?_map, List.getElem?_range hm]

/-- Witness for `bootstrap_closure` on a concrete 2-month, 2-asset matrix
with the index stream (s + m) % 2. -/
theorem bootstrap_closure_witness :
    ∃ r, r < ([[1/100, 2/100], [3/100, 4/100]] : List (List ℚ)).length ∧
      ∀ a, (simulatedPath [[1/100, 2/100], [3/100, 4/100]]
              (fun s m => (s + m) % 2) a 1 12).getD 2 0
            = (([[1/100, 2/100], [3/100, 4/100]] : List (List ℚ)).getD r []).getD a 0 :=
  bootstrap_closure [[1/100, 2/100], [3/100, 4/100]] (fun s m => (s + m) % 2)
    1 2 12 (fun s m => Nat.mod_lt _ (by decide)) (by decide)

/-- C2: every model-portfolio record carries a final risk level that is the
max of the volatility-derived and drawdown-derived levels, hence at least
each of them ("highest risk wins"). -/
theorem highest_risk_wins (frontier : List FrontierPoint) (bands : ℕ → RiskBand)
    (paths : List (ℕ → ℕ → ℚ)) (numSims horizon : ℕ) (t : ℚ) :
    (modelPortfolioAtTarget frontier bands paths numSims horizon t).finalLevel
      = max (modelPortfolioAtTarget frontier bands paths numSims horizon t).volLevel
          (modelPortfolioAtTarget frontier bands paths numSims horizon t).ddLevel
    ∧ (modelPortfolioAtTarget frontier bands paths numSims horizon t).volLevel
        ≤ (modelPortfolioAtTarget frontier bands paths numSims horizon t).finalLevel
    ∧ (modelPortfolioAtTarget frontier bands paths numSims horizon t).ddLevel
        ≤ (modelPortfolioAtTarget frontier bands paths numSims horizon t).finalLevel := by
  unfold modelPortfolioAtTarget classifyPortfolio
  exact ⟨rfl, le_max_left _ _, le_max_right _ _⟩

/-- C3: the code is NOT guarded against zero volatility.  On the constant
return matrix every portfolio has zero quadratic form (volatility 0), and
line 50 of src/portfolio_analysis.py evaluates the unguarded division
p_return / p_volatility, producing a non-finite float (`none`) instead of
a DegenerateInputError sentinel. -/
theorem sharpe_division_unguarded (a b : ℚ) :
    (calculate_portfolio_metrics [a, b] (expected_returns_annualized c3Matrix 2)
      (covariance_matrix_annualized c3Matrix 2)).2 = 0
    ∧ sharpe_ratio_unguarded
        ((calculate_portfolio_metrics [a, b] (expected_returns_annualized c3Matrix 2)
          (covariance_matrix_annualized c3Matrix 2)).1)
        ((calculate_portfolio_metrics [a, b] (expected_returns_annualized c3Matrix 2)
          (covariance_matrix_annualized c3Matrix 2)).2) = none := by
  have hcov : covariance_matrix_annualized c3Matrix 2 = [[0, 0], [0, 0]] := by
    norm_num [covariance_matrix_annualized, sampleCov, column, listMean, c3Matrix,
      List.range_succ]
  have h2 : (calculate_portfolio_metrics [a, b] (expected_returns_annualized c3Matrix 2)
      (covariance_matrix_annualized c3Matrix 2)).2 = 0 := by
    simp [calculate_portfolio_metrics, hcov, dotProd]
  exact ⟨h2, by rw [h2]; simp [sharpe_ratio_unguarded]⟩

/-- If some list entry equals x and sits at the last position, the list's
last element is x. -/
theorem getLastD_of_get? : ∀ (l : List ℚ) (j : ℕ) (x d : ℚ),
    l.get? j = some x → j + 1 = l.length → l.getLastD d = x := by
  intro l
  induction l with
  | nil => intro j x d h _; simp at h
  | cons a tl ih =>
    intro j x d h hlen
    cases j with
    | zero =>
      have hx : a = x := by simpa using h
      have htl : tl = [] := by
        have : tl.length = 0 := by simpa using hlen.symm
        exact List.length_eq_zero.mp this
      subst htl; simpa using hx
    | succ j =>
      have h1 : tl.get? j = some x := by simpa using h
      have h2 : j + 1 = tl.length := by simpa using hlen
      rw [List.getLastD_cons]
      exact ih j x a h1 h2

/-- Any zero recorded by the month loop is the final recorded entry: the
loop appends 0 only in the ruin branch, which breaks immediately. -/
theorem clientSimHistory_zero_last (ret : ℕ → ℚ) (infl : ℚ) (preM horizonM : ℕ) :
    ∀ (k m : ℕ) (bal c w : ℚ) (j : ℕ),
      (clientSimHistory ret infl preM horizonM m k bal c w).get? j = some 0 →
      j + 1 = (clientSimHistory ret infl preM horizonM m k bal c w).length := by
  intro k
  induction k with
  | zero => intro m bal c w j h; simp [clientSimHistory] at h
  | succ k ih =>
    intro m bal c w j h
    by_cases hm : horizonM ≤ m
    · rw [clientSimHistory, if_pos hm] at h
      simp at h
    · rw [clientSimHistory, if_neg hm] at h ⊢
      by_cases hr : (monthUpdate ret infl preM m bal c w).1 ≤ 0
      · rw [if_pos hr] at h ⊢
        cases j with
        | zero => rfl
        | succ j => simp at h
      · rw [if_neg hr] at h ⊢
        cases j with
        | zero =>
          exfalso
          have : (monthUpdate ret infl preM m bal c w).1 = 0 := by simpa using h
          exact hr (le_of_eq this)
        | succ j =>
          have h1 : (clientSimHistory ret infl preM horizonM (m + 1) k
              (monthUpdate ret infl preM m bal c w).1
              (monthUpdate ret infl preM m bal c w).2.1
              (monthUpdate ret infl preM m bal c w).2.2).get? j = some 0 := by
            simpa using h
          have := ih (m + 1) (monthUpdate ret infl preM m bal c w).1
            (monthUpdate ret infl preM m bal c w).2.1
            (monthUpdate ret infl preM m bal c w).2.2 j h1
          simp only [List.length_cons]
          omega

/-- C4: ruin is absorbing.  If a recorded balance at a loop position
(index ≥ 1) is 0, it is the final recorded entry of the run's history
(no later recorded balance exists, in particular no nonzero one) and the
run's terminal balance is 0. -/
theorem ruin_absorbing (ret : ℕ → ℚ) (infl : ℚ) (preM totalM horizonM : ℕ)
    (b0 c w : ℚ) (i : ℕ) (hi : 1 ≤ i)
    (hz : (run_client_retirement_simulation_run ret infl preM totalM horizonM b0 c w).get? i
      = some 0) :
    i + 1 = (run_client_retirement_simulation_run ret infl preM totalM horizonM b0 c w).length
    ∧ clientFinalBalance ret infl preM totalM horizonM b0 c w = 0 := by
  obtain ⟨j, rfl⟩ : ∃ j, i = j + 1 := ⟨i - 1, by omega⟩
  have hj : (clientSimHistory ret infl preM horizonM 0 totalM b0 c w).get? j = some 0 := by
    simpa [run_client_retirement_simulation_run] using hz
  have hlast := clientSimHistory_zero_last ret infl preM horizonM totalM 0 b0 c w j hj
  constructor
  · simp only [run_client_retirement_simulation_run, List.length_cons]
    omega
  · unfold clientFinalBalance run_client_retirement_simulation_run
    rw [List.getLastD_cons]
    exact getLastD_of_get? _ j 0 b0 hj hlast

/-- Witness for `ruin_absorbing`: the end-to-end ruin scenario of the spec
(initial balance 1000, zero returns, annual withdrawal 12000 from month 0):
the run records [1000, 0] and ends ruined at month 0. -/
theorem ruin_absorbing_witness :
    1 + 1 = (run_client_retirement_simulation_run (fun _ => 0) (2/100) 0 12 900 1000 0
      12000).length
    ∧ clientFinalBalance (fun _ => 0) (2/100) 0 12 900 1000 0 12000 = 0 :=
  ruin_absorbing (fun _ => 0) (2/100) 0 12 900 1000 0 12000 1 (by norm_num)
    (by norm_num [run_client_retirement_simulation_run, clientSimHistory, monthUpdate])

/-- Deduplication only keeps elements of the input. -/
theorem dedupByVolAux_subset : ∀ (l : List (ℚ × ℚ)) (seen : List ℚ) (q : ℚ × ℚ),
    q ∈ dedupByVolAux seen l → q ∈ l := by
  intro l
  induction l with
  | nil => intro seen q h; simp [dedupByVolAux] at h
  | cons p ps ih =>
    intro seen q h
    rw [dedupByVolAux] at h
    by_cases hm : p.1 ∈ seen
    · rw [if_pos hm] at h
      exact List.mem_cons_of_mem _ (ih _ _ h)
    · rw [if_neg hm] at h
      rcases List.mem_cons.mp h with h1 | h1
      · subst h1; exact List.mem_cons_self _ _
      · exact List.mem_cons_of_mem _ (ih _ _ h1)

/-- No emitted element has a volatility key already in `seen`. -/
theorem dedupByVolAux_notin_seen : ∀ (l : List (ℚ × ℚ)) (seen : List ℚ) (q : ℚ × ℚ),
    q ∈ dedupByVolAux seen l → q.1 ∉ seen := by
  intro l
  induction l with
  | nil => intro seen q h; simp [dedupByVolAux] at h
  | cons p ps ih =>
    intro seen q h
    rw [dedupByVolAux] at h
    by_cases hm : p.1 ∈ seen
    · rw [if_pos hm] at h; exact ih _ _ h
    · rw [if_neg hm] at h
      rcases List.mem_cons.mp h with h1 | h1
      · subst h1; exact hm
      · have := ih _ _ h1
        exact fun hs => this (List.mem_cons_of_mem _ hs)

/-- After keep-first deduplication the volatility keys are pairwise distinct. -/
theorem dedupByVolAux_pairwise : ∀ (l : List (ℚ × ℚ)) (seen : List ℚ),
    (dedupByVolAux seen l).Pairwise (fun p q : ℚ × ℚ => p.1 ≠ q.1) := by
  intro l
  induction l with
  | nil => intro seen; simp [dedupByVolAux]
  | cons p ps ih =>
    intro seen
    rw [dedupByVolAux]
    by_cases hm : p.1 ∈ seen
    · rw [if_pos hm]; exact ih _
    · rw [if_neg hm]
      refine List.Pairwise.cons (fun q hq => ?_) (ih _)
      have hq1 := dedupByVolAux_notin_seen ps (p.1 :: seen) q hq
      exact fun he => hq1 (he ▸ List.mem_cons_self _ _)

/-- The bucket maximum is a member of the bucket. -/
theorem argmaxReturn_mem : ∀ (l : List (ℚ × ℚ)) (p : ℚ × ℚ),
    argmaxReturn l = some p → p ∈ l := by
  intro l
  induction l with
  | nil => intro p h; simp [argmaxReturn] at h
  | cons a as ih =>
    intro p h
    rw [argmaxReturn] at h
    cases hm : argmaxReturn as with
    | none =>
      rw [hm] at h
      obtain rfl : a = p := Option.some_inj.mp h
      exact List.mem_cons_self _ _
    | some q =>
      rw [hm] at h
      dsimp only at h
      by_cases hlt : a.2 < q.2
      · rw [if_pos hlt] at h
        obtain rfl : q = p := Option.some_inj.mp h
        exact List.mem_cons_of_mem _ (ih _ hm)
      · rw [if_neg hlt] at h
        obtain rfl : a = p := Option.some_inj.mp h
        exact List.mem_cons_self _ _

/-- The accumulator never exceeds a left fold of max. -/
theorem le_foldl_max : ∀ (l : List (ℚ × ℚ)) (acc : ℚ),
    acc ≤ l.foldl (fun a q => max a q.1) acc := by
  intro l
  induction l with
  | nil => intro acc; simp
  | cons p ps ih =>
    intro acc
    simp only [List.foldl_cons]
    exact le_trans (le_max_left _ _) (ih _)

/-- A left fold of min never exceeds the accumulator. -/
theorem foldl_min_le : ∀ (l : List (ℚ × ℚ)) (acc : ℚ),
    l.foldl (fun a q => min a q.1) acc ≤ acc := by
  intro l
  induction l with
  | nil => intro acc; simp
  | cons p ps ih =>
    intro acc
    simp only [List.foldl_cons]
    exact le_trans (ih _) (min_le_left _ _)

/-- The observed volatility minimum never exceeds the maximum. -/
theorem volMin_le_volMax (p : ℚ × ℚ) (ps : List (ℚ × ℚ)) :
    volMin (p :: ps) ≤ volMax (p :: ps) := by
  unfold volMin volMax
  exact le_trans (foldl_min_le ps p.1) (le_foldl_max ps p.1)

/-- Every bucket edge up to the 100th is at most the observed maximum. -/
theorem binEdge_le_max (vmin vmax : ℚ) (i : ℕ) (hi : i ≤ 99) (h : vmin ≤ vmax) :
    binEdge vmin vmax i ≤ vmax := by
  unfold binEdge
  have hc : (i : ℚ) ≤ 99 := by exact_mod_cast hi
  have hd : (0 : ℚ) ≤ vmax - vmin := by linarith
  have h1 : (i : ℚ) * (vmax - vmin) ≤ 99 * (vmax - vmin) :=
    mul_le_mul_of_nonneg_right hc hd
  have h2 : (i : ℚ) * (vmax - vmin) / 99 ≤ 99 * (vmax - vmin) / 99 := by
    have h99 : (0 : ℚ) < 99 := by norm_num
    exact (div_le_div_iff_of_pos_right h99).mpr h1
  have h3 : (99 : ℚ) * (vmax - vmin) / 99 = vmax - vmin := by ring
  linarith

/-- C5: the extracted frontier is strictly increasing in volatility: it is
sorted ascending by volatility and no two points share a volatility. -/
theorem frontier_strictly_ascending (samples : List (ℚ × ℚ)) :
    (generate_efficient_frontier_extract samples).Pairwise
      (fun p q : ℚ × ℚ => p.1 < q.1) := by
  have key : ∀ X : List (ℚ × ℚ),
      (List.insertionSort volLE (dedupByVol X)).Pairwise (fun p q : ℚ × ℚ => p.1 < q.1) := by
    intro X
    have hsorted := List.sorted_insertionSort volLE (dedupByVol X)
    have hne : (dedupByVol X).Pairwise (fun p q : ℚ × ℚ => p.1 ≠ q.1) := by
      unfold dedupByVol; exact dedupByVolAux_pairwise X []
    have hne2 : (List.insertionSort volLE (dedupByVol X)).Pairwise
        (fun p q : ℚ × ℚ => p.1 ≠ q.1) :=
      ((List.perm_insertionSort volLE (dedupByVol X)).pairwise_iff
        (fun h => Ne.symm h)).mpr hne
    exact (hsorted.and hne2).imp (fun h => lt_of_le_of_ne h.1 h.2)
  simp only [generate_efficient_frontier_extract]
  exact key _

/-- C10: every point of the extracted frontier has volatility strictly
below the observed maximum, because every bucket test is the half-open
interval [edge i, edge (i+1)) and the last edge is the maximum; in
particular a sample sitting exactly at the maximum volatility is never
included. -/
theorem max_vol_sample_excluded (samples : List (ℚ × ℚ)) (p : ℚ × ℚ)
    (hp : p ∈ generate_efficient_frontier_extract samples) :
    p.1 < volMax samples := by
  cases samples with
  | nil =>
    rw [show generate_efficient_frontier_extract [] = [] from rfl] at hp
    exact absurd hp (List.not_mem_nil p)
  | cons s ss =>
    simp only [generate_efficient_frontier_extract] at hp
    have hp1 := (List.perm_insertionSort volLE _).mem_iff.mp hp
    rw [dedupByVol] at hp1
    have hp2 := dedupByVolAux_subset _ _ _ hp1
    obtain ⟨i, hi, hpi⟩ := List.mem_flatMap.mp hp2
    cases hq : argmaxReturn ((List.insertionSort sampleOrder (s :: ss)).filter
        (fun q => decide (binEdge (volMin (s :: ss)) (volMax (s :: ss)) i ≤ q.1
          ∧ q.1 < binEdge (volMin (s :: ss)) (volMax (s :: ss)) (i + 1)))) with
    | none => rw [hq] at hpi; simp at hpi
    | some q =>
      rw [hq] at hpi
      obtain rfl : p = q := by simpa using hpi
      have hmem := argmaxReturn_mem _ _ hq
      have hcond := of_decide_eq_true (List.mem_filter.mp hmem).2
      have hi99 : i < 99 := List.mem_range.mp hi
      have hedge := binEdge_le_max (volMin (s :: ss)) (volMax (s :: ss)) (i + 1)
        (by omega) (volMin_le_volMax s ss)
      exact lt_of_lt_of_le hcond.2 hedge

/-- Concrete evaluation: on two samples of volatilities 0 and 99, only the
volatility-0 sample survives the extraction. -/
theorem extract_two_samples :
    generate_efficient_frontier_extract [((0 : ℚ), (0 : ℚ)), (99, 0)] = [(0, 0)] := by
  norm_num [generate_efficient_frontier_extract, List.range_succ, List.insertionSort,
    List.orderedInsert, sampleOrder, volLE, volMin, volMax, binEdge, argmaxReturn,
    dedupByVol, dedupByVolAux, List.filter]

/-- Witness for `max_vol_sample_excluded` at a concrete input. -/
theorem max_vol_sample_excluded_witness :
    (((0 : ℚ), (0 : ℚ)) : ℚ × ℚ).1 < volMax [((0 : ℚ), (0 : ℚ)), (99, 0)] :=
  max_vol_sample_excluded [((0 : ℚ), (0 : ℚ)), (99, 0)] ((0 : ℚ), (0 : ℚ))
    (by rw [extract_two_samples]; exact List.mem_singleton.mpr rfl)

/-- The target-volatility helper never returns a usable (non-None) table,
whatever its input. -/
theorem target_vols_not_ok_some :
    ∀ (tbl : List (String × List (ℕ × RiskBand))) (v : List (ℕ × ℚ)),
      get_target_volatilities_for_risk_level_by_term tbl ≠ .ok (some v) := by
  intro tbl
  induction tbl with
  | nil => intro v h; simp [get_target_volatilities_for_risk_level_by_term] at h
  | cons e rest ih =>
    intro v h
    obtain ⟨t, bands⟩ := e
    cases bands with
    | nil =>
      rw [get_target_volatilities_for_risk_level_by_term] at h
      exact ih v h
    | cons b bs =>
      rw [get_target_volatilities_for_risk_level_by_term] at h
      exact Except.noConfusion h

/-- C6: on any non-empty table of the documented shape (every term carries
a non-empty level-to-band mapping) the helper fails with a TypeError; it
never yields a usable target-volatility table on any input; and the actual
call inside define_and_select_model_portfolios_by_term (which passes the
term name string) always raises, so per-term model-portfolio construction
never completes. -/
theorem target_vols_never_usable (tbl : List (String × List (ℕ × RiskBand)))
    (hne : tbl ≠ []) (hshape : ∀ e ∈ tbl, e.2 ≠ []) :
    (∃ msg, get_target_volatilities_for_risk_level_by_term tbl = .error msg)
    ∧ (∀ (tbl2 : List (String × List (ℕ × RiskBand))) (v : List (ℕ × ℚ)),
        get_target_volatilities_for_risk_level_by_term tbl2 ≠ .ok (some v))
    ∧ (∀ term, modelPortfolioConstructionForTerm term
        = .error "AttributeError: str object has no attribute items") := by
  refine ⟨?_, target_vols_not_ok_some, fun _ => rfl⟩
  cases tbl with
  | nil => exact absurd rfl hne
  | cons e rest =>
    obtain ⟨t, bands⟩ := e
    cases bands with
    | nil => exact absurd rfl (hshape (t, []) (List.mem_cons_self _ _))
    | cons b bs =>
      exact ⟨"TypeError: cannot unpack non-iterable int",
        by rw [get_target_volatilities_for_risk_level_by_term]⟩

/-- Witness for `target_vols_never_usable` on a one-term, one-level table. -/
theorem target_vols_never_usable_witness :
    (∃ msg, get_target_volatilities_for_risk_level_by_term
        [("5_year", [(1, ⟨0, 1, 0⟩)])] = .error msg)
    ∧ (∀ (tbl2 : List (String × List (ℕ × RiskBand))) (v : List (ℕ × ℚ)),
        get_target_volatilities_for_risk_level_by_term tbl2 ≠ .ok (some v))
    ∧ (∀ term, modelPortfolioConstructionForTerm term
        = .error "AttributeError: str object has no attribute items") :=
  target_vols_never_usable [("5_year", [(1, ⟨0, 1, 0⟩)])] (by simp)
    (by intro e he; simp at he; subst he; simp)

/-- C8 counterexample: with a persisted table holding only risk level 1, a
lookup for risk level 2 does NOT fail: the ValueError raised inside the
function is caught and silently replaced by the all-zero default weight
vector.  The caller then detects the zero sum and aborts. -/
theorem weights_lookup_zero_default_cex :
    load_model_portfolio_weights (some [(1, [1/2, 1/2])]) 2 2 = List.replicate 2 (0 : ℚ)
    ∧ clientSimulationWeights (some [(1, [1/2, 1/2])]) 2 2 = none := by
  have h : load_model_portfolio_weights (some [(1, [1/2, 1/2])]) 2 2
      = List.replicate 2 (0 : ℚ) := by
    simp [load_model_portfolio_weights, List.lookup, normalizeWeights]
  refine ⟨h, ?_⟩
  rw [clientSimulationWeights, h]
  norm_num

/-- C8 amended: when the portfolios file is missing or the requested risk
level is absent, `load_model_portfolio_weights` catches the internal
exception and returns the all-zero weight vector (only a printed message,
no error value), and the caller aborts the simulation on seeing the zero
sum. -/
theorem weights_lookup_downgraded_to_zero (tbl : Option (List (ℕ × List ℚ)))
    (riskLevel numAssets : ℕ)
    (hmissing : tbl = none ∨ ∃ t, tbl = some t ∧ t.lookup riskLevel = none) :
    load_model_portfolio_weights tbl riskLevel numAssets = List.replicate numAssets 0
    ∧ clientSimulationWeights tbl riskLevel numAssets = none := by
  have hload : load_model_portfolio_weights tbl riskLevel numAssets
      = List.replicate numAssets 0 := by
    rcases hmissing with h | ⟨t, rfl, hlk⟩
    · rw [h, load_model_portfolio_weights]
    · rw [load_model_portfolio_weights, hlk]
  refine ⟨hload, ?_⟩
  rw [clientSimulationWeights, hload]
  simp

/-- Witness for `weights_lookup_downgraded_to_zero` at a concrete missing
risk level. -/
theorem weights_lookup_downgraded_to_zero_witness :
    load_model_portfolio_weights (some [(1, [1/2, 1/2])]) 3 2 = List.replicate 2 0
    ∧ clientSimulationWeights (some [(1, [1/2, 1/2])]) 3 2 = none :=
  weights_lookup_downgraded_to_zero (some [(1, [1/2, 1/2])]) 3 2
    (Or.inr ⟨[(1, [1/2, 1/2])], rfl, by simp [List.lookup]⟩)

/-- During pure accumulation with positive balance, non-negative
contribution, non-negative inflation and returns above -100 percent, no
ruin occurs and the month loop records exactly one balance per month. -/
theorem clientSimHistory_length_accumulation (ret : ℕ → ℚ) (infl : ℚ)
    (preM horizonM : ℕ) (hinfl : 0 ≤ infl) (hret : ∀ j, 0 < 1 + ret j) :
    ∀ (k m : ℕ) (bal c w : ℚ), m + k ≤ horizonM → m + k ≤ preM →
      0 < bal → 0 ≤ c →
      (clientSimHistory ret infl preM horizonM m k bal c w).length = k := by
  intro k
  induction k with
  | zero => intro m bal c w _ _ _ _; simp [clientSimHistory]
  | succ k ih =>
    intro m bal c w hh hp hb hc
    have hm : ¬ horizonM ≤ m := by omega
    rw [clientSimHistory, if_neg hm]
    have hc1 : 0 ≤ (monthUpdate ret infl preM m bal c w).2.1 := by
      unfold monthUpdate
      dsimp only
      split_ifs with h
      · exact mul_nonneg hc (by linarith)
      · exact hc
    have hbal : 0 < (monthUpdate ret infl preM m bal c w).1 := by
      unfold monthUpdate
      dsimp only
      have hmp : m < preM := by omega
      rw [if_pos hmp]
      have h1 : 0 < bal * (1 + ret m) := mul_pos hb (hret m)
      have h2 : 0 ≤ (if m % 12 = 0 ∧ 0 < m then c * (1 + infl) else c) := by
        split_ifs with h
        · exact mul_nonneg hc (by linarith)
        · exact hc
      have h3 : 0 ≤ (if m % 12 = 0 ∧ 0 < m then c * (1 + infl) else c) / 12 := by
        exact div_nonneg h2 (by norm_num)
      linarith
    rw [if_neg (not_le.mpr hbal)]
    rw [List.length_cons]
    rw [ih (m + 1) (monthUpdate ret infl preM m bal c w).1
      (monthUpdate ret infl preM m bal c w).2.1
      (monthUpdate ret infl preM m bal c w).2.2 (by omega) (by omega) hbal hc1]

/-- C9: the class-based `constant_nominal_contribution` is not the
canonical month-by-month accumulation.  Its balance update sits outside
the month loop, so for any run with at least one pre-retirement month
(within the simulated horizon) it returns a history of exactly two
entries, applying a single compounding by the FINAL pre-retirement month's
return and a single contribution; the canonical accumulation of the client
cash-flow simulator records pre + 1 compounded entries, so for pre ≥ 2 the
two histories always differ. -/
theorem contribution_loop_body_outside (weights : List ℚ) (paths : List (ℕ → ℚ))
    (contribution b0 infl cAnnual wAnnual : ℚ) (pre horizonM : ℕ)
    (h1 : 1 ≤ pre) (h2 : pre ≤ horizonM) (hb : 0 < b0) (hc : 0 ≤ cAnnual)
    (hinfl : 0 ≤ infl)
    (hret : ∀ m, 0 < 1 + portfolioMonthlyReturn weights paths m) :
    constant_nominal_contribution weights paths contribution b0 pre horizonM
      = .ok [b0, b0 * (1 + portfolioMonthlyReturn weights paths (pre - 1)) + contribution]
    ∧ (run_client_retirement_simulation_run (portfolioMonthlyReturn weights paths)
        infl pre pre horizonM b0 cAnnual wAnnual).length = pre + 1
    ∧ (2 ≤ pre → ∀ hist,
        constant_nominal_contribution weights paths contribution b0 pre horizonM = .ok hist →
        hist ≠ run_client_retirement_simulation_run (portfolioMonthlyReturn weights paths)
          infl pre pre horizonM b0 cAnnual wAnnual) := by
  have hlen : (run_client_retirement_simulation_run (portfolioMonthlyReturn weights paths)
      infl pre pre horizonM b0 cAnnual wAnnual).length = pre + 1 := by
    rw [run_client_retirement_simulation_run, List.length_cons]
    rw [clientSimHistory_length_accumulation (portfolioMonthlyReturn weights paths)
      infl pre horizonM hinfl hret pre 0 b0 cAnnual wAnnual (by omega) (by omega) hb hc]
  have hmin : min pre horizonM = pre := min_eq_left h2
  have hidx : contributionLoopLastIndex pre horizonM = some (pre - 1) := by
    rw [contributionLoopLastIndex, if_neg (by omega : ¬ pre = 0)]
    congr 1
    omega
  have hok : constant_nominal_contribution weights paths contribution b0 pre horizonM
      = .ok [b0, b0 * (1 + portfolioMonthlyReturn weights paths (pre - 1)) + contribution] := by
    rw [constant_nominal_contribution]
    rw [hidx]
    dsimp only
    have hget : ((List.range (min pre horizonM)).map
        (portfolioMonthlyReturn weights paths)).get? (pre - 1)
          = some (portfolioMonthlyReturn weights paths (pre - 1)) := by
      rw [hmin]
      rw [List.get?_eq_getElem?, List.getElem?_map, List.getElem?_range (by omega)]
      rfl
    rw [hget]
  refine ⟨hok, hlen, fun hpre2 hist hh => ?_⟩
  rw [hok] at hh
  obtain rfl : [b0, b0 * (1 + portfolioMonthlyReturn weights paths (pre - 1)) + contribution]
      = hist := by simpa using hh
  intro heq
  have : (2 : ℕ) = pre + 1 := by
    calc (2 : ℕ) = [b0, b0 * (1 + portfolioMonthlyReturn weights paths (pre - 1))
          + contribution].length := by simp
    _ = pre + 1 := by rw [heq, hlen]
  omega

/-- Witness for `contribution_loop_body_outside`: two pre-retirement months,
zero returns, contribution 10, initial balance 100. -/
theorem contribution_loop_body_outside_witness :
    constant_nominal_contribution [1] [fun _ => 0] 10 100 2 12
      = .ok [100, 100 * (1 + portfolioMonthlyReturn [1] [fun _ => 0] (2 - 1)) + 10]
    ∧ (run_client_retirement_simulation_run (portfolioMonthlyReturn [1] [fun _ => 0])
        0 2 2 12 100 0 0).length = 2 + 1
    ∧ (2 ≤ 2 → ∀ hist,
        constant_nominal_contribution [1] [fun _ => 0] 10 100 2 12 = .ok hist →
        hist ≠ run_client_retirement_simulation_run (portfolioMonthlyReturn [1] [fun _ => 0])
          0 2 2 12 100 0 0) :=
  contribution_loop_body_outside [1] [fun _ => 0] 10 100 0 0 0 2 12
    (by norm_num) (by norm_num) (by norm_num) le_rfl le_rfl
    (fun m => by norm_num [portfolioMonthlyReturn, dotProd])

/-- If the farther-right point b is strictly closer to t than a, then t
lies strictly right of the midpoint of a and b. -/
theorem abs_cmp_midpoint_1 (a b t : ℚ) (hab : a < b) (h : |b - t| < |a - t|) :
    a + b < 2 * t := by
  rcases abs_cases (b - t) with ⟨h1, h1s⟩ | ⟨h1, h1s⟩ <;>
    rcases abs_cases (a - t) with ⟨h2, h2s⟩ | ⟨h2, h2s⟩ <;>
      rw [h1, h2] at h <;> linarith

/-- If t lies strictly right of the midpoint of a and b, the farther-right
point b is strictly closer to t. -/
theorem abs_cmp_midpoint_2 (a b t : ℚ) (hab : a < b) (h : a + b < 2 * t) :
    |b - t| < |a - t| := by
  rcases abs_cases (b - t) with ⟨h1, h1s⟩ | ⟨h1, h1s⟩ <;>
    rcases abs_cases (a - t) with ⟨h2, h2s⟩ | ⟨h2, h2s⟩ <;>
      rw [h1, h2] <;> linarith

/-- The nearest-volatility index is in bounds. -/
theorem idxminAbs_lt_length (t : ℚ) : ∀ (v : ℚ) (vs : List ℚ),
    idxminAbs t (v :: vs) < (v :: vs).length := by
  intro v vs
  induction vs generalizing v with
  | nil => simp [idxminAbs]
  | cons w ws ih =>
    rw [idxminAbs]
    split_ifs with h
    · simp
    · have := ih w
      simp only [List.length_cons] at this ⊢
      omega

/-- The selected volatility attains the minimal absolute distance to the
target over the whole column. -/
theorem idxminAbs_min (t : ℚ) : ∀ (v : ℚ) (vs : List ℚ) (k : ℕ), k < (v :: vs).length →
    |(v :: vs).getD (idxminAbs t (v :: vs)) 0 - t| ≤ |(v :: vs).getD k 0 - t| := by
  intro v vs
  induction vs generalizing v with
  | nil =>
    intro k hk
    have : k = 0 := by simpa using Nat.lt_one_iff.mp (by simpa using hk)
    subst this
    simp [idxminAbs]
  | cons w ws ih =>
    intro k hk
    rw [idxminAbs]
    split_ifs with h
    · cases k with
      | zero => simp
      | succ k =>
        have hk2 : k < (w :: ws).length := by simpa using hk
        simp only [List.getD_cons_zero, List.getD_cons_succ]
        exact le_trans h (ih w k hk2)
    · push_neg at h
      cases k with
      | zero =>
        simp only [List.getD_cons_succ, List.getD_cons_zero]
        exact le_of_lt h
      | succ k =>
        have hk2 : k < (w :: ws).length := by simpa using hk
        simp only [List.getD_cons_succ]
        exact ih w k hk2

/-- pandas idxmin keeps the FIRST minimizer: every strictly earlier index
has a strictly larger distance. -/
theorem idxminAbs_first (t : ℚ) : ∀ (v : ℚ) (vs : List ℚ) (k : ℕ),
    k < idxminAbs t (v :: vs) →
    |(v :: vs).getD (idxminAbs t (v :: vs)) 0 - t| < |(v :: vs).getD k 0 - t| := by
  intro v vs
  induction vs generalizing v with
  | nil => intro k hk; simp [idxminAbs] at hk
  | cons w ws ih =>
    intro k hk
    rw [idxminAbs] at hk ⊢
    split_ifs at hk ⊢ with h
    · exact absurd hk (Nat.not_lt_zero k)
    · push_neg at h
      cases k with
      | zero =>
        simp only [List.getD_cons_succ, List.getD_cons_zero]
        exact h
      | succ k =>
        have hk2 : k < idxminAbs t (w :: ws) := by omega
        simp only [List.getD_cons_succ]
        exact ih w k hk2

/-- In a list sorted ascending, earlier entries are no larger. -/
theorem sorted_getD_mono (l : List ℚ) (hs : l.Pairwise (· ≤ ·)) (i j : ℕ)
    (hij : i ≤ j) (hj : j < l.length) : l.getD i 0 ≤ l.getD j 0 := by
  rcases eq_or_lt_of_le hij with rfl | hlt
  · exact le_refl _
  · have hi : i < l.length := lt_trans hlt hj
    have hrel := List.pairwise_iff_get.mp hs ⟨i, hi⟩ ⟨j, hj⟩ (Fin.mk_lt_mk.mpr hlt)
    rw [List.getD_eq_getElem _ _ hi, List.getD_eq_getElem _ _ hj]
    simpa [List.get_eq_getElem] using hrel

/-- Nearest-volatility selection on a sorted column is monotone in the
target, with the pandas first-minimizer tie-break. -/
theorem select_vol_mono (vols : List ℚ) (hs : vols.Pairwise (· ≤ ·))
    (hne : vols ≠ []) (t1 t2 : ℚ) (ht : t1 ≤ t2) :
    vols.getD (idxminAbs t1 vols) 0 ≤ vols.getD (idxminAbs t2 vols) 0 := by
  obtain ⟨v, vs, rfl⟩ := List.exists_cons_of_ne_nil hne
  by_contra hcon
  push_neg at hcon
  have hilen : idxminAbs t1 (v :: vs) < (v :: vs).length := idxminAbs_lt_length t1 v vs
  have hjlen : idxminAbs t2 (v :: vs) < (v :: vs).length := idxminAbs_lt_length t2 v vs
  have hji : idxminAbs t2 (v :: vs) < idxminAbs t1 (v :: vs) := by
    by_contra hji
    push_neg at hji
    exact absurd (sorted_getD_mono _ hs _ _ hji hjlen) (not_le.mpr hcon)
  have h1 := idxminAbs_first t1 v vs _ hji
  have hmid := abs_cmp_midpoint_1 _ _ t1 hcon h1
  have h2 := abs_cmp_midpoint_2 ((v :: vs).getD (idxminAbs t2 (v :: vs)) 0)
    ((v :: vs).getD (idxminAbs t1 (v :: vs)) 0) t2 hcon (by linarith)
  have h3 := idxminAbs_min t2 v vs _ hilen
  linarith

/-- With contiguous bands the per-level volatility minima are
non-decreasing. -/
theorem bands_min_mono (bands : ℕ → RiskBand)
    (hcont : ∀ r, 1 ≤ r → r ≤ 9 → (bands (r + 1)).vol_min = (bands r).vol_max)
    (hwf : ∀ r, 1 ≤ r → r ≤ 10 → (bands r).vol_min ≤ (bands r).vol_max) :
    ∀ (d r : ℕ), 1 ≤ r → r + d ≤ 10 → (bands r).vol_min ≤ (bands (r + d)).vol_min := by
  intro d
  induction d with
  | zero => intro r _ _; rw [Nat.add_zero]
  | succ d ih =>
    intro r h1 h2
    have step : (bands (r + d)).vol_min ≤ (bands (r + d + 1)).vol_min := by
      rw [hcont (r + d) (by omega) (by omega)]
      exact hwf (r + d) (by omega) (by omega)
    calc (bands r).vol_min ≤ (bands (r + d)).vol_min := ih r h1 (by omega)
      _ ≤ (bands (r + (d + 1))).vol_min := step

/-- With contiguous bands, a lower band's upper edge is at most a higher
band's lower edge. -/
theorem bands_cross (bands : ℕ → RiskBand)
    (hcont : ∀ r, 1 ≤ r → r ≤ 9 → (bands (r + 1)).vol_min = (bands r).vol_max)
    (hwf : ∀ r, 1 ≤ r → r ≤ 10 → (bands r).vol_min ≤ (bands r).vol_max)
    (r s : ℕ) (h1 : 1 ≤ r) (hrs : r < s) (hs : s ≤ 10) :
    (bands r).vol_max ≤ (bands s).vol_min := by
  have h2 := hcont r h1 (by omega)
  have h3 : (bands (r + 1)).vol_min ≤ (bands s).vol_min := by
    obtain ⟨d, rfl⟩ : ∃ d, s = (r + 1) + d := ⟨s - (r + 1), by omega⟩
    exact bands_min_mono bands hcont hwf d (r + 1) (by omega) (by omega)
  rw [← h2]
  exact h3

/-- Every level between 1 and 10 occurs in the iteration order. -/
theorem mem_levelsList (k : ℕ) (h1 : 1 ≤ k) (h2 : k ≤ 10) : k ∈ levelsList := by
  interval_cases k <;> decide

/-- The iterated levels are exactly 1..10. -/
theorem levelsList_bounds : ∀ r ∈ levelsList, 1 ≤ r ∧ r ≤ 10 := by decide

/-- If no band matched v and v lies below band 10's lower edge, v lies
below every band's lower edge (downward walk through the contiguous
bands). -/
theorem bands_no_gap (bands : ℕ → RiskBand)
    (hcont : ∀ r, 1 ≤ r → r ≤ 9 → (bands (r + 1)).vol_min = (bands r).vol_max)
    (hwf : ∀ r, 1 ≤ r → r ≤ 10 → (bands r).vol_min ≤ (bands r).vol_max)
    (v : ℚ)
    (hnone : levelsList.find?
      (fun r => decide ((bands r).vol_min ≤ v ∧ v < (bands r).vol_max)) = none)
    (hv10 : v < (bands 10).vol_min) :
    ∀ j, j ≤ 9 → v < (bands (10 - j)).vol_min := by
  intro j
  induction j with
  | zero => intro _; simpa using hv10
  | succ j ih =>
    intro hj
    have hprev : v < (bands (10 - j)).vol_min := ih (by omega)
    by_contra hcon
    push_neg at hcon
    have hk1 : 1 ≤ 10 - (j + 1) := by omega
    have hk9 : 10 - (j + 1) ≤ 9 := by omega
    have hkk : 10 - (j + 1) + 1 = 10 - j := by omega
    have hmax : v < (bands (10 - (j + 1))).vol_max := by
      rw [← hcont (10 - (j + 1)) hk1 hk9, hkk]
      exact hprev
    have hmem : (10 - (j + 1)) ∈ levelsList := mem_levelsList _ hk1 (by omega)
    exact (List.find?_eq_none.mp hnone _ hmem) (decide_eq_true ⟨hcon, hmax⟩)

/-- The assigned volatility level always lies in 1..10. -/
theorem volRiskLevel_bounds (bands : ℕ → RiskBand) (v : ℚ) :
    1 ≤ volRiskLevel bands v ∧ volRiskLevel bands v ≤ 10 := by
  rw [volRiskLevel]
  cases hf : levelsList.find?
      (fun r => decide ((bands r).vol_min ≤ v ∧ v < (bands r).vol_max)) with
  | some r =>
    exact levelsList_bounds r (List.mem_of_find?_eq_some hf)
  | none =>
    dsimp only
    split_ifs <;> exact ⟨by omega, by omega⟩

/-- On a contiguous ascending band table the volatility-derived level is
monotone in the actual volatility. -/
theorem volRiskLevel_mono (bands : ℕ → RiskBand)
    (hcont : ∀ r, 1 ≤ r → r ≤ 9 → (bands (r + 1)).vol_min = (bands r).vol_max)
    (hwf : ∀ r, 1 ≤ r → r ≤ 10 → (bands r).vol_min ≤ (bands r).vol_max)
    (v1 v2 : ℚ) (h12 : v1 ≤ v2) :
    volRiskLevel bands v1 ≤ volRiskLevel bands v2 := by
  rw [volRiskLevel, volRiskLevel]
  cases hf1 : levelsList.find?
      (fun r => decide ((bands r).vol_min ≤ v1 ∧ v1 < (bands r).vol_max)) with
  | some a =>
    have ha : (bands a).vol_min ≤ v1 ∧ v1 < (bands a).vol_max := by
      simpa using List.find?_some hf1
    have hamem := levelsList_bounds a (List.mem_of_find?_eq_some hf1)
    cases hf2 : levelsList.find?
        (fun r => decide ((bands r).vol_min ≤ v2 ∧ v2 < (bands r).vol_max)) with
    | some b =>
      have hb : (bands b).vol_min ≤ v2 ∧ v2 < (bands b).vol_max := by
        simpa using List.find?_some hf2
      have hbmem := levelsList_bounds b (List.mem_of_find?_eq_some hf2)
      dsimp only
      by_contra hcon
      push_neg at hcon
      have hcross := bands_cross bands hcont hwf b a hbmem.1 hcon hamem.2
      linarith [ha.1, hb.2]
    | none =>
      dsimp only
      split_ifs with h10
      · exact hamem.2
      · push_neg at h10
        exfalso
        have hng := bands_no_gap bands hcont hwf v2 hf2 h10 (10 - a) (by omega)
        rw [show 10 - (10 - a) = a from by omega] at hng
        linarith [ha.1]
  | none =>
    cases hf2 : levelsList.find?
        (fun r => decide ((bands r).vol_min ≤ v2 ∧ v2 < (bands r).vol_max)) with
    | some b =>
      have hb : (bands b).vol_min ≤ v2 ∧ v2 < (bands b).vol_max := by
        simpa using List.find?_some hf2
      have hbmem := levelsList_bounds b (List.mem_of_find?_eq_some hf2)
      dsimp only
      split_ifs with h10
      · by_contra hcon
        push_neg at hcon
        have hcross := bands_cross bands hcont hwf b 10 hbmem.1 (by omega) (by omega)
        linarith [hb.2]
      · exact hbmem.1
    | none =>
      dsimp only
      split_ifs with h1 h2 h2
      · exact le_refl _
      · exact absurd (le_trans h1 h12) h2
      · omega
      · exact le_refl _

/-- The volatility of the selected frontier point, read through the mapped
volatility column. -/
theorem selectedFrontierPoint_vol (frontier : List FrontierPoint) (t : ℚ) :
    (selectedFrontierPoint frontier t).vol
      = (frontier.map FrontierPoint.vol).getD
          (idxminAbs t (frontier.map FrontierPoint.vol)) 0 := by
  rw [selectedFrontierPoint]
  set i := idxminAbs t (frontier.map FrontierPoint.vol)
  by_cases hi : i < frontier.length
  · rw [List.getD_eq_getElem _ _ hi, List.getD_eq_getElem _ _ (by simpa using hi)]
    simp
  · push_neg at hi
    rw [List.getD_eq_default _ _ hi, List.getD_eq_default _ _ (by simpa using hi)]
    rfl

/-- C7 amended: for a fixed term (bands and simulated paths) and a fixed
frontier sorted ascending by volatility, with contiguous ascending risk
bands, the VOLATILITY-derived risk level of the produced record is
non-decreasing in the target volatility.  (The final level itself is not
monotone: the drawdown-derived component can decrease, see the
counterexample.) -/
theorem vol_level_monotone_in_target (frontier : List FrontierPoint)
    (bands : ℕ → RiskBand) (paths : List (ℕ → ℕ → ℚ)) (numSims horizon : ℕ)
    (t1 t2 : ℚ)
    (hne : frontier ≠ [])
    (hsorted : (frontier.map FrontierPoint.vol).Pairwise (· ≤ ·))
    (hcont : ∀ r, 1 ≤ r → r ≤ 9 → (bands (r + 1)).vol_min = (bands r).vol_max)
    (hwf : ∀ r, 1 ≤ r → r ≤ 10 → (bands r).vol_min ≤ (bands r).vol_max)
    (ht : t1 ≤ t2) :
    (modelPortfolioAtTarget frontier bands paths numSims horizon t1).volLevel
      ≤ (modelPortfolioAtTarget frontier bands paths numSims horizon t2).volLevel := by
  have hv : ∀ t, (modelPortfolioAtTarget frontier bands paths numSims horizon t).volLevel
      = volRiskLevel bands ((frontier.map FrontierPoint.vol).getD
          (idxminAbs t (frontier.map FrontierPoint.vol)) 0) := by
    intro t
    rw [modelPortfolioAtTarget]
    dsimp only [classifyPortfolio]
    rw [selectedFrontierPoint_vol]
  rw [hv t1, hv t2]
  refine volRiskLevel_mono bands hcont hwf _ _ ?_
  exact select_vol_mono _ hsorted (by simpa using hne) t1 t2 ht

/-- Witness for `vol_level_monotone_in_target` on the concrete frontier and
band table. -/
theorem vol_level_monotone_witness :
    (modelPortfolioAtTarget cexFrontier cexBands cexPaths 1 1 (1/10)).volLevel
      ≤ (modelPortfolioAtTarget cexFrontier cexBands cexPaths 1 1 (2/10)).volLevel :=
  vol_level_monotone_in_target cexFrontier cexBands cexPaths 1 1 (1/10) (2/10)
    (by simp [cexFrontier])
    (by norm_num [cexFrontier, List.pairwise_cons])
    (by intro r hr1 hr9; interval_cases r <;> norm_num [cexBands])
    (by intro r hr1 hr10; interval_cases r <;> norm_num [cexBands])
    (by norm_num)

/-- C7 counterexample: on a fixed frontier, fixed contiguous ascending
bands and fixed simulated paths, raising the target volatility from 0.1 to
0.2 LOWERS the final assigned risk level from 6 to 5 (the drawdown-derived
component collapses from 6 to 1 while the volatility-derived component
only rises from 3 to 5), so the final level is not monotone in the target
volatility. -/
theorem final_level_not_monotone_cex :
    ((1 : ℚ)/10 ≤ 2/10)
    ∧ (modelPortfolioAtTarget cexFrontier cexBands cexPaths 1 1 (1/10)).finalLevel = 6
    ∧ (modelPortfolioAtTarget cexFrontier cexBands cexPaths 1 1 (2/10)).finalLevel = 5
    ∧ ¬ ((modelPortfolioAtTarget cexFrontier cexBands cexPaths 1 1 (1/10)).finalLevel
        ≤ (modelPortfolioAtTarget cexFrontier cexBands cexPaths 1 1 (2/10)).finalLevel) := by
  have e1 : (modelPortfolioAtTarget cexFrontier cexBands cexPaths 1 1 (1/10)).finalLevel
      = 6 := by
    norm_num [modelPortfolioAtTarget, selectedFrontierPoint, idxminAbs, cexFrontier,
      cexBands, cexPaths, dotProd, portfolioValues, portfolioValue, maxDrawdown,
      drawdownAux, percentile1, classifyPortfolio, volRiskLevel, ddRiskLevel, levelsList,
      List.find?, List.range_succ, List.insertionSort, List.orderedInsert]
  have e2 : (modelPortfolioAtTarget cexFrontier cexBands cexPaths 1 1 (2/10)).finalLevel
      = 5 := by
    norm_num [modelPortfolioAtTarget, selectedFrontierPoint, idxminAbs, cexFrontier,
      cexBands, cexPaths, dotProd, portfolioValues, portfolioValue, maxDrawdown,
      drawdownAux, percentile1, classifyPortfolio, volRiskLevel, ddRiskLevel, levelsList,
      List.find?, List.range_succ, List.insertionSort, List.orderedInsert]
  refine ⟨by norm_num, e1, e2, ?_⟩
  rw [e1, e2]
  norm_num

end RetirementPlanner
